import Mathlib

/-!
Verification of the Cobalt IntersectionObserver subsystem
(src/cobalt/dom/intersection_observer.cc), embedded shallowly in Lean.

Elements and entries are modelled by their identities (natural numbers).
A slot in the tracked-target vector is `Option Element`: `none` models a
stale slot whose underlying element reference has been cleared.
Doubles are modelled as rationals: every operation the code performs on
threshold values (comparison with 0 and 1, ascending sort) is exact, so
no floating-point rounding is observable in the embedded fragment.
External collaborators (the task manager / coordinator, the per-target
registration API, the CSS margin parser) are modelled by recording the
calls made to them, or by a boolean parse-success parameter.
-/

namespace IObs

/-- Identity of a DOM element (observation target). -/
abbrev Element := Nat

/-- Identity of an IntersectionObserverEntry record. -/
abbrev Entry := Nat

/-- Mutable state of one IntersectionObserver: the tracked-target vector
`observation_targets_` (slots may be stale, modelled by `none`) and the
FIFO entry queue `queued_entries_`. -/
structure ObserverState where
  observation_targets : List (Option Element)
  queued_entries : List Entry
deriving DecidableEq

/-- Calls an observer makes into its external collaborators. -/
inductive ExternalCall where
  /-- task_manager()->OnIntersectionObserverDestroyed(this) -/
  | observerDestroyed : ExternalCall
  /-- target->UnregisterIntersectionObserverTarget(this) -/
  | unregisterTarget (t : Element) : ExternalCall
deriving DecidableEq

/-- IntersectionObserver::TrackObservationTarget (intersection_observer.cc
lines 278-292): scan the vector; erase stale (null) slots as they are met;
return unchanged on finding the target; otherwise append the target. -/
def trackObservationTarget : List (Option Element) → Element → List (Option Element)
  | [], t => [some t]
  | none :: rest, t => trackObservationTarget rest t
  | some e :: rest, t =>
      if e = t then some e :: rest
      else some e :: trackObservationTarget rest t

/-- IntersectionObserver::UntrackObservationTarget (lines 294-308): scan,
erasing stale slots; erase the first slot holding the target and stop. -/
def untrackObservationTarget : List (Option Element) → Element → List (Option Element)
  | [], _ => []
  | none :: rest, t => untrackObservationTarget rest t
  | some e :: rest, t =>
      if e = t then rest
      else some e :: untrackObservationTarget rest t

/-- IntersectionObserver::Observe (lines 97-106): register the back
reference on the target, then track it. Only the tracked vector is part
of the observer state; the target-side registration is external. -/
def observe (s : ObserverState) (t : Element) : ObserverState :=
  ⟨trackObservationTarget s.observation_targets t, s.queued_entries⟩

/-- Folding Observe over a call sequence, from a given starting state. -/
def observeAll (s : ObserverState) (ts : List Element) : ObserverState :=
  ts.foldl observe s

/-- IntersectionObserver::TakeRecords (lines 135-142): swap the queue with
an empty sequence and return the previous contents. -/
def takeRecords (s : ObserverState) : List Entry × ObserverState :=
  (s.queued_entries, ⟨s.observation_targets, []⟩)

/-- IntersectionObserver::QueueIntersectionObserverEntry (lines 144-150):
append the entry at the tail (the call into
task_manager()->QueueIntersectionObserverTask() is external scheduling
and does not change observer state). -/
def queueEntry (s : ObserverState) (e : Entry) : ObserverState :=
  ⟨s.observation_targets, s.queued_entries ++ [e]⟩

/-- Folding QueueIntersectionObserverEntry over an arrival sequence. -/
def queueEntryAll (s : ObserverState) (es : List Entry) : ObserverState :=
  es.foldl queueEntry s

/-- The deregistration calls Disconnect makes (lines 124-130): one
UnregisterIntersectionObserverTarget call per non-null slot, in vector
order. -/
def disconnectDeregCalls : List (Option Element) → List Element
  | [] => []
  | none :: rest => disconnectDeregCalls rest
  | some t :: rest => t :: disconnectDeregCalls rest

/-- IntersectionObserver::Disconnect (lines 119-133): call the
deregistration API on every non-null tracked slot, then clear both the
tracked vector and the entry queue. Returns the deregistration calls
made, paired with the new state. -/
def disconnect (s : ObserverState) : List Element × ObserverState :=
  (disconnectDeregCalls s.observation_targets, ⟨[], []⟩)

/-- IntersectionObserver::Notify (lines 167-184). The callback is a
parameter `cb`; `cb batch = true` models RunCallback returning true (the
script callback completed with no exception). Returns the bool Notify
returns, the list of callback invocations made (each invocation receives
the drained batch together with a reference to the observer itself,
which is left implicit since there is a single observer in scope), and
the state after. -/
def notify (cb : List Entry → Bool) (s : ObserverState) :
    Bool × List (List Entry) × ObserverState :=
  if s.queued_entries.isEmpty then
    (true, [], s)
  else
    let taken := takeRecords s
    (cb taken.1, [taken.1], taken.2)

/-- IntersectionObserver::~IntersectionObserver (lines 83-85): the body
is exactly one call, task_manager()->OnIntersectionObserverDestroyed(this).
No target deregistration API is called; the strong references held in
observation_targets_ are simply released when the vector is destroyed. -/
def destructorCalls (_s : ObserverState) : List ExternalCall :=
  [ExternalCall.observerDestroyed]

/-- The two exception classes InitIntersectionObserverInternal can set
on the ExceptionState. -/
inductive SimpleException where
  | kSyntaxError : SimpleException
  | kRangeError : SimpleException
deriving DecidableEq

/-- The threshold member of IntersectionObserverInit: a union of a single
double and a sequence of doubles. -/
inductive ThresholdType where
  | double (d : ℚ) : ThresholdType
  | seq (l : List ℚ) : ThresholdType

/-- Observable outcome of IntersectionObserver::InitIntersectionObserverInternal:
exceptions set on the ExceptionState in order, the final contents of
thresholds_, and whether task_manager()->OnIntersectionObserverCreated(this)
was reached. -/
structure InitResult where
  exceptions : List SimpleException
  thresholds : List ℚ
  observerCreated : Bool
deriving DecidableEq

/-- The threshold loop of lines 258-268: walk the sequence; on the first
value outside [0,1] stop with failure (the accumulated pushes are kept,
matching the early return that leaves thresholds_ as is); otherwise
push_back the value and continue. Returns the accumulated thresholds_
and whether the loop ran to completion. -/
def pushThresholds : List ℚ → List ℚ → List ℚ × Bool
  | acc, [] => (acc, true)
  | acc, v :: rest =>
      if v < 0 ∨ v > 1 then (acc, false)
      else pushThresholds (acc ++ [v]) rest

/-- IntersectionObserver::InitIntersectionObserverInternal
(lines 195-276), restricted to its observable effects. `marginParseOk`
models whether the external CSS parser returned a property list for the
root margin text (line 232). Note that on parse failure the code sets a
SyntaxError but does not return: execution falls through to threshold
processing. The ascending std::sort of line 269 is modelled by
insertion sort, which produces the identical list: for the total order
on rationals any sorted permutation of a list is unique as a list. -/
def initIntersectionObserver (marginParseOk : Bool) (threshold : ThresholdType) :
    InitResult :=
  let exc0 : List SimpleException :=
    if marginParseOk then [] else [SimpleException.kSyntaxError]
  match threshold with
  | ThresholdType.double d =>
      if d < 0 ∨ d > 1 then
        ⟨exc0 ++ [SimpleException.kRangeError], [], false⟩
      else
        let ts := [d]
        let ts := if ts.isEmpty then [(0 : ℚ)] else ts
        ⟨exc0, ts, true⟩
  | ThresholdType.seq l =>
      match pushThresholds [] l with
      | (acc, false) => ⟨exc0 ++ [SimpleException.kRangeError], acc, false⟩
      | (acc, true) =>
          let sorted := acc.insertionSort (· ≤ ·)
          let ts := if sorted.isEmpty then [(0 : ℚ)] else sorted
          ⟨exc0, ts, true⟩

/-- Specification-side description of first-Observe order: fold that
appends a target only when not already present. Used to compare the
tracked vector against the order Observe was first called per target. -/
def firstObserveOrder (ts : List Element) : List Element :=
  ts.foldl (fun acc t => if t ∈ acc then acc else acc ++ [t]) []

/-- A threshold configuration containing a value outside [0,1]. -/
def hasOutOfRange : ThresholdType → Prop
  | ThresholdType.double d => d < 0 ∨ d > 1
  | ThresholdType.seq l => ∃ v ∈ l, v < 0 ∨ v > 1

/-- C7: TakeRecords swaps the internal queue with an empty one and returns
the previous contents; two consecutive TakeRecords calls with no
intervening QueueEntry return the full queued contents the first time and
the empty sequence the second time, and never touch the tracked targets. -/
theorem takeRecords_drains_exactly_once (s : ObserverState) :
    (takeRecords s).1 = s.queued_entries ∧
    (takeRecords s).2 = ⟨s.observation_targets, []⟩ ∧
    (takeRecords (takeRecords s).2).1 = [] :=
  ⟨rfl, rfl, rfl⟩

/-- C8: Notify on an observer with an empty entry queue returns success
(true), performs no callback invocation, and leaves the state unchanged. -/
theorem notify_empty_queue_noop (cb : List Entry → Bool) (s : ObserverState)
    (h : s.queued_entries = []) :
    notify cb s = (true, [], s) := by
  simp [notify, h]

theorem notify_empty_queue_noop_witness :
    notify (fun _ => false) (⟨[some 5], []⟩ : ObserverState) =
      (true, [], (⟨[some 5], []⟩ : ObserverState)) :=
  notify_empty_queue_noop (fun _ => false) ⟨[some 5], []⟩ rfl

theorem disconnectDeregCalls_eq_filterMap (ts : List (Option Element)) :
    disconnectDeregCalls ts = ts.filterMap id := by
  induction ts with
  | nil => rfl
  | cons hd tl ih => cases hd <;> simp [disconnectDeregCalls, ih]

/-- C9: Disconnect calls the deregistration API on every currently tracked
non-stale target (in tracked order), then empties both the tracked-target
sequence and the entry queue, so a subsequent TakeRecords returns the empty
sequence. -/
theorem disconnect_deregisters_and_clears (s : ObserverState) :
    (disconnect s).1 = s.observation_targets.filterMap id ∧
    (disconnect s).2.observation_targets = [] ∧
    (takeRecords (disconnect s).2).1 = [] :=
  ⟨disconnectDeregCalls_eq_filterMap _, rfl, rfl⟩

/-- C2 counterexample: with one still-tracked target (element 1), the
destructor makes zero calls to that target deregistration API; its only
external call is OnIntersectionObserverDestroyed. This refutes the claim
that the destructor calls the deregistration API of every still-tracked
target. -/
theorem destructor_counterexample :
    (⟨[some 1], []⟩ : ObserverState).observation_targets = [some 1] ∧
    destructorCalls ⟨[some 1], []⟩ = [ExternalCall.observerDestroyed] ∧
    (destructorCalls ⟨[some 1], []⟩).count (ExternalCall.unregisterTarget 1) = 0 := by
  decide

/-- C2 amended: when an observer in the Valid state is destroyed, it
informs the coordinator (OnIntersectionObserverDestroyed) and nothing
else: no target deregistration API is called; the strong references to
tracked targets are simply released with the object. -/
theorem destructor_notifies_coordinator_only (s : ObserverState) :
    destructorCalls s = [ExternalCall.observerDestroyed] :=
  rfl

/-- C1: evaluating construction at a failing root-margin parse. The code
sets a SyntaxError but does not return, so initialization continues:
with a valid (empty) threshold sequence the thresholds are still
normalized to [0] and OnIntersectionObserverCreated is still reached;
with an out-of-range threshold, threshold validation still runs and a
RangeError is set after the SyntaxError. This contradicts the claim (and
the W3C algorithm quoted in the code comments) that a margin parse
failure stops initialization before threshold validation and before
coordinator registration. -/
theorem margin_parse_failure_still_registers :
    initIntersectionObserver false (ThresholdType.seq []) =
      ⟨[SimpleException.kSyntaxError], [0], true⟩ ∧
    initIntersectionObserver false (ThresholdType.seq [2]) =
      ⟨[SimpleException.kSyntaxError, SimpleException.kRangeError], [], false⟩ := by
  constructor <;> rfl

theorem queueEntryAll_eq (s : ObserverState) (es : List Entry) :
    queueEntryAll s es = ⟨s.observation_targets, s.queued_entries ++ es⟩ := by
  induction es generalizing s with
  | nil => simp [queueEntryAll]
  | cons e rest ih =>
      show queueEntryAll (queueEntry s e) rest = _
      rw [ih]
      simp [queueEntry]

/-- C3: after queuing a nonempty arrival sequence of entries onto an
observer with an empty queue, Notify drains the queue and invokes the
callback exactly once, with the batch equal to the arrival (FIFO) order;
the returned bool is exactly the callback outcome; and whatever that
outcome, the batch is not re-queued: the final queue is empty, so a
subsequent TakeRecords returns the empty sequence. -/
theorem notify_delivers_batch_once (cb : List Entry → Bool) (s : ObserverState)
    (es : List Entry) (hq : s.queued_entries = []) (hne : es ≠ []) :
    notify cb (queueEntryAll s es) =
      (cb es, [es], ⟨s.observation_targets, []⟩) ∧
    (takeRecords (notify cb (queueEntryAll s es)).2.2).1 = [] := by
  have hempty : es.isEmpty = false := by
    cases es with
    | nil => exact absurd rfl hne
    | cons e rest => rfl
  rw [queueEntryAll_eq, hq]
  constructor
  · simp [notify, takeRecords, hempty]
  · simp [notify, takeRecords, hempty]

theorem notify_delivers_batch_once_witness :
    notify (fun _ => false) (queueEntryAll ⟨[], []⟩ [10, 20]) =
      (false, [[10, 20]], (⟨[], []⟩ : ObserverState)) ∧
    (takeRecords (notify (fun _ => false) (queueEntryAll ⟨[], []⟩ [10, 20])).2.2).1 = [] :=
  notify_delivers_batch_once (fun _ => false) ⟨[], []⟩ [10, 20] rfl (by decide)

theorem pushThresholds_all_valid (l : List ℚ) (acc : List ℚ)
    (h : ∀ v ∈ l, 0 ≤ v ∧ v ≤ 1) :
    pushThresholds acc l = (acc ++ l, true) := by
  induction l generalizing acc with
  | nil => simp [pushThresholds]
  | cons v rest ih =>
      have hv : 0 ≤ v ∧ v ≤ 1 := h v (by simp)
      have hnv : ¬(v < 0 ∨ v > 1) := by
        rintro (hlt | hgt)
        · exact absurd hlt (not_lt.2 hv.1)
        · exact absurd hgt (not_lt.2 hv.2)
      rw [pushThresholds, if_neg hnv, ih (acc ++ [v]) (fun w hw => h w (by simp [hw]))]
      simp

/-- C4: for any sequence of threshold ratios all within [0,1], construction
succeeds (no exception, coordinator registration reached) and stores the
ratios sorted ascending; a nonempty input is stored as a permutation of
itself (duplicates preserved, no deduplication); an empty input is stored
as exactly [0]. -/
theorem thresholds_sorted_with_duplicates (l : List ℚ)
    (h : ∀ v ∈ l, 0 ≤ v ∧ v ≤ 1) :
    (initIntersectionObserver true (ThresholdType.seq l)).exceptions = [] ∧
    (initIntersectionObserver true (ThresholdType.seq l)).observerCreated = true ∧
    (initIntersectionObserver true (ThresholdType.seq l)).thresholds.Sorted (· ≤ ·) ∧
    (l = [] → (initIntersectionObserver true (ThresholdType.seq l)).thresholds = [0]) ∧
    (l ≠ [] → (initIntersectionObserver true (ThresholdType.seq l)).thresholds.Perm l) := by
  have hpush := pushThresholds_all_valid l [] h
  simp only [List.nil_append] at hpush
  have hperm : (l.insertionSort (· ≤ ·)).Perm l := List.perm_insertionSort _ l
  have hr : initIntersectionObserver true (ThresholdType.seq l) =
      ⟨[], if (l.insertionSort (· ≤ ·)).isEmpty then [(0 : ℚ)]
           else l.insertionSort (· ≤ ·), true⟩ := by
    simp [initIntersectionObserver, hpush]
  rw [hr]
  refine ⟨rfl, rfl, ?_, ?_, ?_⟩
  · by_cases hl : (l.insertionSort (· ≤ ·)).isEmpty
    · simp [hl]
    · simpa [hl] using List.sorted_insertionSort (α := ℚ) (· ≤ ·) l
  · intro hnil
    subst hnil
    rfl
  · intro hne
    have hne2 : (l.insertionSort (· ≤ ·)) ≠ [] := by
      intro hcon
      rw [hcon] at hperm
      exact hne (List.Perm.eq_nil hperm.symm)
    simp only [List.isEmpty_eq_true]
    rw [if_neg hne2]
    exact hperm

theorem thresholds_sorted_with_duplicates_witness :
    (∀ v ∈ [(1 : ℚ)/2, 1/4, 1/2], 0 ≤ v ∧ v ≤ 1) ∧
    ((initIntersectionObserver true (ThresholdType.seq [(1 : ℚ)/2, 1/4, 1/2])).exceptions = [] ∧
     (initIntersectionObserver true (ThresholdType.seq [(1 : ℚ)/2, 1/4, 1/2])).observerCreated = true ∧
     (initIntersectionObserver true (ThresholdType.seq [(1 : ℚ)/2, 1/4, 1/2])).thresholds.Sorted (· ≤ ·) ∧
     (([(1 : ℚ)/2, 1/4, 1/2] : List ℚ) = [] →
       (initIntersectionObserver true (ThresholdType.seq [(1 : ℚ)/2, 1/4, 1/2])).thresholds = [0]) ∧
     (([(1 : ℚ)/2, 1/4, 1/2] : List ℚ) ≠ [] →
       (initIntersectionObserver true (ThresholdType.seq [(1 : ℚ)/2, 1/4, 1/2])).thresholds.Perm
         [(1 : ℚ)/2, 1/4, 1/2])) ∧
    (initIntersectionObserver true (ThresholdType.seq [(1 : ℚ)/2, 1/4, 1/2])).thresholds =
      [(1 : ℚ)/4, 1/2, 1/2] :=
  ⟨by norm_num, thresholds_sorted_with_duplicates _ (by norm_num), by
    norm_num [initIntersectionObserver, pushThresholds, List.insertionSort,
      List.orderedInsert]⟩

theorem pushThresholds_stops_at_bad (l₁ : List ℚ) (v : ℚ) (l₂ : List ℚ)
    (acc : List ℚ) (h1 : ∀ x ∈ l₁, 0 ≤ x ∧ x ≤ 1) (h2 : v < 0 ∨ v > 1) :
    pushThresholds acc (l₁ ++ v :: l₂) = (acc ++ l₁, false) := by
  induction l₁ generalizing acc with
  | nil => simp [pushThresholds, h2]
  | cons x rest ih =>
      have hx : 0 ≤ x ∧ x ≤ 1 := h1 x (by simp)
      have hnx : ¬(x < 0 ∨ x > 1) := by
        rintro (hlt | hgt)
        · exact absurd hlt (not_lt.2 hx.1)
        · exact absurd hgt (not_lt.2 hx.2)
      have hstep : ((x :: rest) ++ v :: l₂) = x :: (rest ++ v :: l₂) := rfl
      rw [hstep, pushThresholds, if_neg hnx,
        ih (acc ++ [x]) (fun w hw => h1 w (by simp [hw]))]
      simp

theorem pushThresholds_snd_bad (v : ℚ) (hvr : v < 0 ∨ v > 1)
    (l₁ l₂ : List ℚ) (acc : List ℚ) :
    (pushThresholds acc (l₁ ++ v :: l₂)).2 = false := by
  induction l₁ generalizing acc with
  | nil => rw [List.nil_append, pushThresholds, if_pos hvr]
  | cons x rest ih =>
      by_cases hx : x < 0 ∨ x > 1
      · rw [List.cons_append, pushThresholds, if_pos hx]
      · rw [List.cons_append, pushThresholds, if_neg hx]
        exact ih _

/-- C5: if the supplied threshold configuration (single value or sequence)
contains a value outside [0,1], construction sets a RangeError on the
exception state and returns before reaching
OnIntersectionObserverCreated, for either outcome of the margin parse. -/
theorem out_of_range_threshold_fails (mOk : Bool) (t : ThresholdType)
    (h : hasOutOfRange t) :
    SimpleException.kRangeError ∈ (initIntersectionObserver mOk t).exceptions ∧
    (initIntersectionObserver mOk t).observerCreated = false := by
  cases t with
  | double d =>
      simp only [hasOutOfRange] at h
      simp [initIntersectionObserver, h]
  | seq l =>
      simp only [hasOutOfRange] at h
      obtain ⟨v, hv, hvr⟩ := h
      obtain ⟨l₁, l₂, rfl⟩ := List.append_of_mem hv
      rcases hfirst : pushThresholds [] (l₁ ++ v :: l₂) with ⟨acc, b⟩
      have hb : b = false := by
        have h2 := pushThresholds_snd_bad v hvr l₁ l₂ []
        rw [hfirst] at h2
        exact h2
      subst hb
      simp [initIntersectionObserver, hfirst]

theorem out_of_range_threshold_fails_witness :
    hasOutOfRange (ThresholdType.double 2) ∧
    (SimpleException.kRangeError ∈
        (initIntersectionObserver true (ThresholdType.double 2)).exceptions ∧
      (initIntersectionObserver true (ThresholdType.double 2)).observerCreated = false) :=
  ⟨Or.inr (by norm_num),
    out_of_range_threshold_fails true (ThresholdType.double 2) (Or.inr (by norm_num))⟩

/-- C10: when the threshold sequence has its first out-of-range value at
position i (all earlier values in range), the error return leaves
thresholds_ holding exactly the first i input values in the original
input order: not sorted, no default 0 appended, previously appended
values not rolled back. Construction fails with a RangeError and the
coordinator is never reached. -/
theorem range_error_nonatomic_thresholds (l₁ : List ℚ) (v : ℚ) (l₂ : List ℚ)
    (h1 : ∀ x ∈ l₁, 0 ≤ x ∧ x ≤ 1) (h2 : v < 0 ∨ v > 1) :
    initIntersectionObserver true (ThresholdType.seq (l₁ ++ v :: l₂)) =
      ⟨[SimpleException.kRangeError], l₁, false⟩ := by
  have hp := pushThresholds_stops_at_bad l₁ v l₂ [] h1 h2
  simp only [List.nil_append] at hp
  simp [initIntersectionObserver, hp]

theorem range_error_nonatomic_thresholds_witness :
    (∀ x ∈ [(1 : ℚ)/2, 1/4], 0 ≤ x ∧ x ≤ 1) ∧ ((2 : ℚ) < 0 ∨ (2 : ℚ) > 1) ∧
    initIntersectionObserver true
        (ThresholdType.seq ([(1 : ℚ)/2, 1/4] ++ (2 : ℚ) :: [0])) =
      ⟨[SimpleException.kRangeError], [(1 : ℚ)/2, 1/4], false⟩ :=
  ⟨by norm_num, by norm_num,
    range_error_nonatomic_thresholds [(1 : ℚ)/2, 1/4] 2 [0]
      (by norm_num) (by norm_num)⟩

theorem trackObservationTarget_map_some (l : List Element) (t : Element) :
    trackObservationTarget (l.map some) t =
      (if t ∈ l then l else l ++ [t]).map some := by
  induction l with
  | nil => simp [trackObservationTarget]
  | cons e rest ih =>
      by_cases he : e = t
      · subst he
        simp [trackObservationTarget]
      · have hte : ¬(t = e) := fun h => he h.symm
        rw [List.map_cons]
        rw [show trackObservationTarget (some e :: rest.map some) t =
              (if e = t then some e :: rest.map some
               else some e :: trackObservationTarget (rest.map some) t) from rfl]
        rw [if_neg he, ih]
        by_cases ht : t ∈ rest
        · simp [ht, hte]
        · simp [ht, hte]

theorem observeAll_map_some (ts : List Element) (q : List Entry)
    (acc : List Element) :
    observeAll ⟨acc.map some, q⟩ ts =
      ⟨(ts.foldl (fun a t => if t ∈ a then a else a ++ [t]) acc).map some, q⟩ := by
  induction ts generalizing acc with
  | nil => rfl
  | cons t rest ih =>
      have hobs : observe (⟨acc.map some, q⟩ : ObserverState) t =
          ⟨(if t ∈ acc then acc else acc ++ [t]).map some, q⟩ := by
        simp only [observe, trackObservationTarget_map_some]
      show observeAll (observe ⟨acc.map some, q⟩ t) rest = _
      rw [hobs, ih (if t ∈ acc then acc else acc ++ [t])]
      rfl

theorem foldl_firstObserve_nodup (ts : List Element) (acc : List Element)
    (h : acc.Nodup) :
    (ts.foldl (fun a t => if t ∈ a then a else a ++ [t]) acc).Nodup := by
  induction ts generalizing acc with
  | nil => exact h
  | cons t rest ih =>
      rw [List.foldl_cons]
      by_cases ht : t ∈ acc
      · rw [if_pos ht]
        exact ih acc h
      · rw [if_neg ht]
        refine ih _ ?_
        simp [List.nodup_append, h, ht]

/-- C6: starting from a freshly constructed observer, after any sequence
of Observe calls the tracked-target vector lists exactly the distinct
observed targets, each wrapped in a live slot, in first-Observe order;
that list has no duplicate (each target tracked at most once); and a
further Observe of any already-tracked target leaves the state
unchanged (re-observation is a no-op). -/
theorem observe_tracks_each_target_once (ts : List Element) :
    (observeAll ⟨[], []⟩ ts).observation_targets = (firstObserveOrder ts).map some ∧
    (firstObserveOrder ts).Nodup ∧
    ∀ t, t ∈ firstObserveOrder ts →
      observe (observeAll ⟨[], []⟩ ts) t = observeAll ⟨[], []⟩ ts := by
  have hall : observeAll ⟨[], []⟩ ts = ⟨(firstObserveOrder ts).map some, []⟩ := by
    have h0 := observeAll_map_some ts [] []
    simpa [firstObserveOrder] using h0
  refine ⟨?_, ?_, ?_⟩
  · rw [hall]
  · exact foldl_firstObserve_nodup ts [] List.nodup_nil
  · intro t ht
    rw [hall]
    simp [observe, trackObservationTarget_map_some, ht]

theorem observe_tracks_each_target_once_witness :
    (observeAll ⟨[], []⟩ [1, 2, 1]).observation_targets = [some 1, some 2] ∧
    ([1, 2] : List Element).Nodup ∧
    observe (observeAll ⟨[], []⟩ [1, 2, 1]) 1 = observeAll ⟨[], []⟩ [1, 2, 1] := by
  have h := observe_tracks_each_target_once [1, 2, 1]
  refine ⟨?_, by decide, h.2.2 1 (by decide)⟩
  rw [h.1]
  decide

end IObs
